import Mathlib

/-!
# Verification of the rolling-buffer charting engine (`display.py`)

Shallow embedding of the `Display` class of `display.py`: the time-bucketing
state machine (`add` / `_process_last_bin` / `_outdated`), the axis-limit
computation (`_calculate_y_axis_limits`), the graph-plot loop of
`_update_display`, and the refresh requests issued to the e-paper driver.

Conventions of the embedding:
* Python floats are modelled as exact rationals (`ℚ`); timestamps are `ℤ`.
* Python `None` history entries ("gaps") become `Option.none`; candle tuples
  `(min, max, ts)` become the `Candle` structure.
* Python `int(x)` (truncation toward zero) is `pyInt`; `x // y` on
  nonnegative-denominator rationals is `Int.floor` of the quotient, and
  `math.ceil` is `Int.ceil`, matching real-number semantics of the floats.
* Python negative indexing `data[-i]` (note `data[-0] = data[0]`) is
  `pyNegIdx`; the slice `data[-k:]` is `pyLastSlice`.
* `self.mode` is set to `'candle'` in `__init__` and never reassigned
  anywhere in the repository, so the `if self.mode != 'candle': raise`
  guards in `_process_last_bin` and `_calculate_y_axis_limits` are dead
  branches; the embedding fixes the candle mode.
-/

namespace RpiPicoDisplay

/-- A closed, non-empty bin summary: the Python tuple
`(min(bin), max(bin), last_ts)` appended to `self.data` in
`_process_last_bin`.  `lo`/`hi` are the tuple's min/max fields, `ts` the
bin-start timestamp. -/
structure Candle where
  lo : ℚ
  hi : ℚ
  ts : ℤ
deriving DecidableEq, Repr

/-- A history entry: `none` models the Python `None` ("gap") appended for an
empty bin, `some c` a candle tuple. -/
abbrev Entry := Option Candle

/-- The configuration fixed in `Display.__init__` (all fields are constants
after construction). -/
structure Config where
  /-- `self.full_h = 128` -/
  fullH : ℤ
  /-- `self.full_w = 296` -/
  fullW : ℤ
  /-- `self.graph_h = int(128*5/6) = 106` -/
  graphH : ℤ
  /-- `self.graph_w = 296` -/
  graphW : ℕ
  /-- `self.y_axis_scale_step = 200` -/
  stepY : ℤ
  /-- first component of `self.plot_extra_v_range = (1, 0)` -/
  extraLow : ℤ
  /-- second component of `self.plot_extra_v_range = (1, 0)` -/
  extraHigh : ℤ
  /-- `self.seconds_per_bin = self.time_range / self.graph_w` -/
  secondsPerBin : ℚ
  /-- `self.data_max_size = self.graph_w` -/
  dataMaxSize : ℕ
deriving DecidableEq

/-- The concrete configuration built by `Display.__init__`:
`time_range = 7 * 30 * 60 = 12600` seconds, so
`seconds_per_bin = 12600 / 296`. -/
def dispCfg : Config :=
  { fullH := 128
    fullW := 296
    graphH := 106
    graphW := 296
    stepY := 200
    extraLow := 1
    extraHigh := 0
    secondsPerBin := 12600 / 296
    dataMaxSize := 296 }

/-- The display configuration with `seconds_per_bin` set to 30 — the
configuration the spec's end-to-end scenario fixes. -/
def cfg30 : Config := { dispCfg with secondsPerBin := 30 }

/-- A small-capacity variant (capacity 2, 30-second bins) used to exercise
the capacity clamp on short runs. -/
def cfgTiny : Config := { dispCfg with secondsPerBin := 30, dataMaxSize := 2 }

/-- The mutable bucketing state of a `Display` instance:
`self.data`, `self.last_bin`, `self.last_ts`, `self.last_co2`. -/
structure DState where
  data : List Entry
  lastBin : List ℚ
  lastTs : ℤ
  lastCo2 : ℚ
deriving DecidableEq

/-- The state right after `__init__`: empty history, empty open bin,
`last_ts = 0`, `last_co2 = 0.0`. -/
def initState : DState :=
  { data := [], lastBin := [], lastTs := 0, lastCo2 := 0 }

/-- Python slice `l[-k:]` (last `k` elements; for `k = 0` the slice is the
whole list). -/
def pyLastSlice (k : ℕ) (l : List α) : List α :=
  if k = 0 then l else l.drop (l.length - k)

/-- The entry `_process_last_bin` builds from the open bin: `None` for an
empty bin, else the tuple `(min(bin), max(bin), ts)` (Python `min`/`max` of
a non-empty list = left fold from the head). -/
def binEntry (bin : List ℚ) (ts : ℤ) : Entry :=
  match bin with
  | [] => none
  | v :: vs => some ⟨vs.foldl min v, vs.foldl max v, ts⟩

/-- `Display._process_last_bin(ts)`: append the closed-bin entry to
`self.data`, clamp `self.data` to the last `data_max_size` entries when it
exceeds that size, reset `self.last_bin = []`, set `self.last_ts = ts`. -/
def processLastBin (cfg : Config) (s : DState) (ts : ℤ) : DState :=
  let data1 := s.data ++ [binEntry s.lastBin s.lastTs]
  let data2 := if data1.length > cfg.dataMaxSize then pyLastSlice cfg.dataMaxSize data1 else data1
  { s with data := data2, lastBin := [], lastTs := ts }

/-- `Display._outdated(ts)`: `ts - self.last_ts > self.seconds_per_bin`. -/
def outdated (cfg : Config) (s : DState) (ts : ℤ) : Bool :=
  decide (((ts - s.lastTs : ℤ) : ℚ) > cfg.secondsPerBin)

/-- `Display.add(value, ts)` for a scalar value with an explicit timestamp
(the `ts=None → time.time()` default and the list-broadcast recursion are
callers' conveniences that do not touch the bucketing logic).  If the bin is
outdated: append `value` to the open bin, process the bin, then append
`value` again to the (reset) bin; otherwise just append `value`.
`self.last_co2 = value` is set unconditionally. -/
def addSample (cfg : Config) (s : DState) (v : ℚ) (ts : ℤ) : DState :=
  if outdated cfg s ts then
    let s1 := processLastBin cfg { s with lastBin := s.lastBin ++ [v] } ts
    { s1 with lastBin := s1.lastBin ++ [v], lastCo2 := v }
  else
    { s with lastBin := s.lastBin ++ [v], lastCo2 := v }

/-- Feed a sequence of `(value, timestamp)` samples through `add`. -/
def addAll (cfg : Config) (s : DState) (samples : List (ℚ × ℤ)) : DState :=
  samples.foldl (fun st p => addSample cfg st p.1 p.2) s

end RpiPicoDisplay

namespace RpiPicoDisplay

/-- Python `int(x)`: truncation toward zero. -/
def pyInt (q : ℚ) : ℤ := if 0 ≤ q then ⌊q⌋ else ⌈q⌉

/-- Python negative indexing `data[-i]` as used in `_calculate_y_axis_limits`
and `_update_display`: note `data[-0]` is `data[0]` (the oldest entry), while
`data[-i]` for `i ≥ 1` is the `i`-th newest entry.  Only applied in-range,
so the default is never returned there. -/
def pyNegIdx (data : List Entry) (i : ℕ) : Entry :=
  if i = 0 then data.getD 0 none else data.getD (data.length - i) none

/-- One iteration of the min/max scan in `_calculate_y_axis_limits`
(lines `gmin = min(gmin, minv)` etc.; the `Bool` is `return_defaults`). -/
def scanStep (acc : ℚ × ℚ × Bool) (e : Entry) : ℚ × ℚ × Bool :=
  match e with
  | none => acc
  | some c => (min acc.1 c.lo, max acc.2.1 c.hi, false)

/-- The scan loop of `_calculate_y_axis_limits`:
`for i in range(n): ... self.data[-i] ...` starting from the sentinels
`gmin, gmax = 999999, -999999` and `return_defaults = True`. -/
def scanMinMax (data : List Entry) (n : ℕ) : ℚ × ℚ × Bool :=
  (List.range n).foldl (fun acc i => scanStep acc (pyNegIdx data i)) (999999, -999999, true)

/-- `Display._calculate_y_axis_limits(extra_low, extra_high)`:
scan `min(graph_w, len(data))` entries via `data[-i]`; if no candle was
seen return the fallback `(400, 1000)`; otherwise
`(int(step * (gmin//step - extra_low)), int(step * (ceil(gmax/step) + extra_high)))`. -/
def calcYAxisLimits (cfg : Config) (data : List Entry) (extraLow extraHigh : ℤ) : ℤ × ℤ :=
  let r := scanMinMax data (min cfg.graphW data.length)
  if r.2.2 then (400, 1000)
  else
    (pyInt ((cfg.stepY : ℚ) * ((⌊r.1 / (cfg.stepY : ℚ)⌋ : ℚ) - (extraLow : ℚ))),
     pyInt ((cfg.stepY : ℚ) * ((⌈r.2.1 / (cfg.stepY : ℚ)⌉ : ℚ) + (extraHigh : ℚ))))

/-- The draw command issued by the graph-plot loop of `_update_display`
(one `epd.vline` per candle). -/
inductive DrawCmd where
  | vline (x y h : ℤ)
deriving DecidableEq

/-- The body of the graph-plot loop of `_update_display` for a candle at
loop index `i`: `x = g_right - i` (with `g_right = self.full_w`),
`y = int(full_h - ((value - y_axis_min) / y_axis_range) * graph_h)` applied
to the candle's max and min, and `h = max(2, y_bot - y_top)`. -/
def drawCandle (cfg : Config) (yAxisMin yAxisRange : ℤ) (i : ℕ) (c : Candle) : DrawCmd :=
  let x : ℤ := cfg.fullW - (i : ℤ)
  let yTopRel : ℚ := (c.hi - (yAxisMin : ℚ)) / (yAxisRange : ℚ)
  let yTop : ℤ := pyInt ((cfg.fullH : ℚ) - yTopRel * (cfg.graphH : ℚ))
  let yBotRel : ℚ := (c.lo - (yAxisMin : ℚ)) / (yAxisRange : ℚ)
  let yBot : ℤ := pyInt ((cfg.fullH : ℚ) - yBotRel * (cfg.graphH : ℚ))
  DrawCmd.vline x yTop (max 2 (yBot - yTop))

/-- The graph-plot loop of `_update_display` (lines 207–226):
`for i in range(len(data))`, break once `i > graph_w`, skip `None`
entries of `data[-i]`, emit one vline per candle. -/
def plotGraph (cfg : Config) (data : List Entry) (yAxisMin yAxisRange : ℤ) : List DrawCmd :=
  ((List.range data.length).takeWhile (fun i => decide (i ≤ cfg.graphW))).filterMap
    (fun i => (pyNegIdx data i).map (drawCandle cfg yAxisMin yAxisRange i))

/-- A repaint request to the e-paper driver: `base` models
`epd.display_Base(...)` (full repaint), `quick` models
`epd.display_Partial(...)` (the fast partial-refresh repaint). -/
inductive Refresh where
  | base
  | quick
deriving DecidableEq

/-- The repaint requests issued by `Display.update_text(redraw)`:
`epd.display_Partial(epd.buffer)` exactly when `redraw` is true. -/
def updateTextRefreshes (redraw : Bool) : List Refresh :=
  if redraw then [Refresh.quick] else []

/-- The repaint requests issued by one call to `Display._update_display()`:
it calls `self.update_text(redraw=False)` and ends with
`epd.display_Base(epd.buffer)`. -/
def updateDisplayRefreshes : List Refresh :=
  updateTextRefreshes false ++ [Refresh.base]

/-- The repaint request issued by `Display.init()` (called from
`__init__`): `epd.display_Base(epd.buffer)`. -/
def initRefreshes : List Refresh := [Refresh.base]

/-- The `min` fields of the candles of a history, in order (gaps skipped). -/
def candleLos (data : List Entry) : List ℚ :=
  data.filterMap (fun e => e.map Candle.lo)

/-- The `max` fields of the candles of a history, in order (gaps skipped). -/
def candleHis (data : List Entry) : List ℚ :=
  data.filterMap (fun e => e.map Candle.hi)

/-- `gmin` as computed by the scan when it covers the whole history:
Python `min(999999, *candle mins)`. -/
def gMin (data : List Entry) : ℚ := (candleLos data).foldl min 999999

/-- `gmax` as computed by the scan when it covers the whole history:
Python `max(-999999, *candle maxes)`. -/
def gMax (data : List Entry) : ℚ := (candleHis data).foldl max (-999999)

/-- Well-formedness of a history: every candle records a min that is at most
its max.  Every candle the code ever appends is `(min(bin), max(bin), ts)`
of a non-empty bin, so this holds for all reachable histories
(`addAll_wf` below). -/
def WFData (data : List Entry) : Bool :=
  data.all (fun e => match e with | none => true | some c => decide (c.lo ≤ c.hi))

/-- Ghost trace of the bucketer: the list of history entries produced (in
order) when the given samples are fed through `add` from a state with the
given `last_ts` and open bin.  Mirrors the recursion of `addSample`;
used to state what the history looks like before capacity clamping. -/
def producedEntries (cfg : Config) (lastTs : ℤ) (bin : List ℚ) : List (ℚ × ℤ) → List Entry
  | [] => []
  | (v, t) :: rest =>
    if ((t - lastTs : ℤ) : ℚ) > cfg.secondsPerBin then
      binEntry (bin ++ [v]) lastTs :: producedEntries cfg t [v] rest
    else
      producedEntries cfg lastTs (bin ++ [v]) rest

/-- The last `n` elements of a list (all of it when `n ≥ length`). -/
def rtake (n : ℕ) (l : List α) : List α := (l.reverse.take n).reverse

/-- Modelled from the claim's words ("the number of bucket boundaries
crossed by the timestamps"): bucket boundaries sit every `spb` seconds
after the initial bin start `t0`; a step from timestamp `a` to `b` crosses
`⌊(b-t0)/spb⌋ - ⌊(a-t0)/spb⌋` of them, summed over consecutive samples. -/
def bucketIndex (spb : ℚ) (t0 t : ℤ) : ℤ := ⌊((t - t0 : ℤ) : ℚ) / spb⌋

/-- Modelled from the claim's words: total number of bucket boundaries
crossed by a timestamp sequence. -/
def specNumBoundariesCrossed (spb : ℚ) (t0 : ℤ) (ts : List ℤ) : ℤ :=
  ((ts.zip ts.tail).map (fun p => bucketIndex spb t0 p.2 - bucketIndex spb t0 p.1)).sum

/-- The scan step is right-commutative: visiting entries in any order
yields the same `(gmin, gmax, return_defaults)`. -/
instance : RightCommutative scanStep := by
  constructor
  intro acc e1 e2
  cases e1 with
  | none => cases e2 <;> rfl
  | some c1 =>
    cases e2 with
    | none => rfl
    | some c2 =>
      show (min (min acc.1 c1.lo) c2.lo, max (max acc.2.1 c1.hi) c2.hi, false)
        = (min (min acc.1 c2.lo) c1.lo, max (max acc.2.1 c2.hi) c1.hi, false)
      rw [min_right_comm, Max.right_comm]

/-! ## Helper lemmas -/

theorem pyInt_intCast (k : ℤ) : pyInt ((k : ℤ) : ℚ) = k := by
  rw [pyInt]
  split
  · exact Int.floor_intCast k
  · exact Int.ceil_intCast k

/-- When the scan saw a candle, `_calculate_y_axis_limits` returns the
rounded limits, as integers (the Python `int(...)` truncations are exact
because `step * (integer)` is an integer). -/
theorem calcYAxisLimits_eq (cfg : Config) (data : List Entry) (extraLow extraHigh : ℤ)
    (h : (scanMinMax data (min cfg.graphW data.length)).2.2 = false) :
    calcYAxisLimits cfg data extraLow extraHigh =
      (cfg.stepY * (⌊(scanMinMax data (min cfg.graphW data.length)).1 / (cfg.stepY : ℚ)⌋ - extraLow),
       cfg.stepY * (⌈(scanMinMax data (min cfg.graphW data.length)).2.1 / (cfg.stepY : ℚ)⌉ + extraHigh)) := by
  rw [calcYAxisLimits]
  rw [if_neg (by simp [h])]
  have h1 : ((cfg.stepY : ℚ)) * ((⌊(scanMinMax data (min cfg.graphW data.length)).1 / (cfg.stepY : ℚ)⌋ : ℚ) - (extraLow : ℚ))
      = ((cfg.stepY * (⌊(scanMinMax data (min cfg.graphW data.length)).1 / (cfg.stepY : ℚ)⌋ - extraLow) : ℤ) : ℚ) := by
    push_cast
    ring
  have h2 : ((cfg.stepY : ℚ)) * ((⌈(scanMinMax data (min cfg.graphW data.length)).2.1 / (cfg.stepY : ℚ)⌉ : ℚ) + (extraHigh : ℚ))
      = ((cfg.stepY * (⌈(scanMinMax data (min cfg.graphW data.length)).2.1 / (cfg.stepY : ℚ)⌉ + extraHigh) : ℤ) : ℚ) := by
    push_cast
    ring
  rw [h1, h2, pyInt_intCast, pyInt_intCast]

/-- Evaluate `pyInt` on a nonnegative rational from floor bounds. -/
theorem pyInt_eq (q : ℚ) (k : ℤ) (h0 : 0 ≤ q) (h1 : (k : ℚ) ≤ q) (h2 : q < k + 1) :
    pyInt q = k := by
  rw [pyInt, if_pos h0, Int.floor_eq_iff]
  exact ⟨h1, h2⟩

/-- `drawCandle` unfolded (the `let` chain of the loop body). -/
theorem drawCandle_eval (cfg : Config) (yAxisMin yAxisRange : ℤ) (i : ℕ) (c : Candle) :
    drawCandle cfg yAxisMin yAxisRange i c =
      DrawCmd.vline (cfg.fullW - (i : ℤ))
        (pyInt ((cfg.fullH : ℚ) - (c.hi - (yAxisMin : ℚ)) / (yAxisRange : ℚ) * (cfg.graphH : ℚ)))
        (max 2
          (pyInt ((cfg.fullH : ℚ) - (c.lo - (yAxisMin : ℚ)) / (yAxisRange : ℚ) * (cfg.graphH : ℚ)) -
           pyInt ((cfg.fullH : ℚ) - (c.hi - (yAxisMin : ℚ)) / (yAxisRange : ℚ) * (cfg.graphH : ℚ)))) :=
  rfl

/-! ## Folds computing Python `min(...)` / `max(...)` -/

theorem foldl_min_le_init {α : Type} [LinearOrder α] (l : List α) (a : α) :
    l.foldl min a ≤ a := by
  induction l generalizing a with
  | nil => exact le_refl a
  | cons x xs ih => exact le_trans (ih (min a x)) (min_le_left a x)

theorem foldl_min_le_mem {α : Type} [LinearOrder α] (l : List α) (a : α) :
    ∀ q ∈ l, l.foldl min a ≤ q := by
  induction l generalizing a with
  | nil => intro q hq; cases hq
  | cons x xs ih =>
    intro q hq
    rcases List.mem_cons.mp hq with h | h
    · subst h
      exact le_trans (foldl_min_le_init xs (min a q)) (min_le_right a q)
    · exact ih (min a x) q h

theorem foldl_min_init_or_mem {α : Type} [LinearOrder α] (l : List α) (a : α) :
    l.foldl min a = a ∨ l.foldl min a ∈ l := by
  induction l generalizing a with
  | nil => exact Or.inl rfl
  | cons x xs ih =>
    rcases ih (min a x) with h | h
    · rcases min_choice a x with hm | hm
      · exact Or.inl (by rw [List.foldl_cons, h, hm])
      · exact Or.inr (by rw [List.foldl_cons, h, hm]; exact List.mem_cons_self x xs)
    · exact Or.inr (List.mem_cons_of_mem x h)

theorem foldl_max_init_le {α : Type} [LinearOrder α] (l : List α) (a : α) :
    a ≤ l.foldl max a := by
  induction l generalizing a with
  | nil => exact le_refl a
  | cons x xs ih => exact le_trans (le_max_left a x) (ih (max a x))

theorem foldl_max_mem_le {α : Type} [LinearOrder α] (l : List α) (a : α) :
    ∀ q ∈ l, q ≤ l.foldl max a := by
  induction l generalizing a with
  | nil => intro q hq; cases hq
  | cons x xs ih =>
    intro q hq
    rcases List.mem_cons.mp hq with h | h
    · subst h
      exact le_trans (le_max_right a q) (foldl_max_init_le xs (max a q))
    · exact ih (max a x) q h

theorem foldl_max_init_or_mem {α : Type} [LinearOrder α] (l : List α) (a : α) :
    l.foldl max a = a ∨ l.foldl max a ∈ l := by
  induction l generalizing a with
  | nil => exact Or.inl rfl
  | cons x xs ih =>
    rcases ih (max a x) with h | h
    · rcases max_choice a x with hm | hm
      · exact Or.inl (by rw [List.foldl_cons, h, hm])
      · exact Or.inr (by rw [List.foldl_cons, h, hm]; exact List.mem_cons_self x xs)
    · exact Or.inr (List.mem_cons_of_mem x h)

/-! ## Well-formedness of histories -/

theorem wfData_iff (data : List Entry) :
    WFData data = true ↔ ∀ c : Candle, some c ∈ data → c.lo ≤ c.hi := by
  rw [WFData, List.all_eq_true]
  constructor
  · intro h c hc
    have := h (some c) hc
    simpa using this
  · intro h e he
    cases e with
    | none => rfl
    | some c => simpa using h c he

/-- Every entry the code appends is well-formed: a candle records
`(min(bin), max(bin))` of a non-empty bin, and the fold computing the min
is bounded by the fold computing the max. -/
theorem binEntry_wf (bin : List ℚ) (ts : ℤ) (c : Candle)
    (h : binEntry bin ts = some c) : c.lo ≤ c.hi := by
  match bin with
  | [] => simp [binEntry] at h
  | v :: vs =>
    rw [binEntry] at h
    injection h with h
    subst h
    exact le_trans (foldl_min_le_init vs v) (foldl_max_init_le vs v)

theorem processLastBin_wf (cfg : Config) (s : DState) (ts : ℤ)
    (h : WFData s.data = true) : WFData (processLastBin cfg s ts).data = true := by
  rw [wfData_iff] at h ⊢
  intro c hc
  rw [processLastBin] at hc
  simp only at hc
  have hmem : some c ∈ s.data ++ [binEntry s.lastBin s.lastTs] := by
    by_cases hlen : (s.data ++ [binEntry s.lastBin s.lastTs]).length > cfg.dataMaxSize
    · rw [if_pos hlen] at hc
      rw [pyLastSlice] at hc
      split at hc
      · exact hc
      · exact List.mem_of_mem_drop hc
    · rw [if_neg hlen] at hc
      exact hc
  rcases List.mem_append.mp hmem with hm | hm
  · exact h c hm
  · have h2 : binEntry s.lastBin s.lastTs = some c := by
      have := hm
      simp only [List.mem_singleton] at this
      exact this.symm
    exact binEntry_wf _ _ _ h2

theorem addSample_wf (cfg : Config) (s : DState) (v : ℚ) (ts : ℤ)
    (h : WFData s.data = true) : WFData (addSample cfg s v ts).data = true := by
  rw [addSample]
  split
  · exact processLastBin_wf cfg { s with lastBin := s.lastBin ++ [v] } ts h
  · exact h

/-- All histories reachable by feeding samples from a well-formed state
(in particular from `initState`) are well-formed. -/
theorem addAll_wf (cfg : Config) (samples : List (ℚ × ℤ)) :
    ∀ s : DState, WFData s.data = true → WFData (addAll cfg s samples).data = true := by
  induction samples with
  | nil => intro s h; exact h
  | cons p rest ih =>
    intro s h
    exact ih (addSample cfg s p.1 p.2) (addSample_wf cfg s p.1 p.2 h)

/-! ## The axis-limit scan -/

theorem getD_none_mem (l : List Entry) (k : ℕ) (c : Candle)
    (h : l.getD k none = some c) : some c ∈ l := by
  rw [List.getD_eq_getElem?_getD] at h
  cases hk : l[k]? with
  | none => rw [hk] at h; simp at h
  | some e =>
    rw [hk] at h
    simp only [Option.getD_some] at h
    exact h ▸ List.getElem?_mem hk

theorem pyNegIdx_mem (data : List Entry) (i : ℕ) (c : Candle)
    (h : pyNegIdx data i = some c) : some c ∈ data := by
  rw [pyNegIdx] at h
  split at h
  · exact getD_none_mem _ _ _ h
  · exact getD_none_mem _ _ _ h

/-- Invariant of the scan loop: whenever `return_defaults` has been cleared,
the running `gmin` is at most the running `gmax` (for a well-formed
history). -/
theorem scan_inv (data : List Entry) (hwf : ∀ c : Candle, some c ∈ data → c.lo ≤ c.hi)
    (l : List ℕ) :
    ∀ acc : ℚ × ℚ × Bool, (acc.2.2 = false → acc.1 ≤ acc.2.1) →
      ((l.foldl (fun acc i => scanStep acc (pyNegIdx data i)) acc).2.2 = false →
       (l.foldl (fun acc i => scanStep acc (pyNegIdx data i)) acc).1 ≤
         (l.foldl (fun acc i => scanStep acc (pyNegIdx data i)) acc).2.1) := by
  induction l with
  | nil => intro acc hacc; exact hacc
  | cons i rest ih =>
    intro acc hacc
    rw [List.foldl_cons]
    apply ih
    cases h : pyNegIdx data i with
    | none => exact hacc
    | some c =>
      intro _
      exact le_trans (min_le_right acc.1 c.lo)
        (le_trans (hwf c (pyNegIdx_mem data i c h)) (le_max_right acc.2.1 c.hi))

theorem scanMinMax_min_le_max (data : List Entry) (n : ℕ)
    (hwf : ∀ c : Candle, some c ∈ data → c.lo ≤ c.hi)
    (h : (scanMinMax data n).2.2 = false) :
    (scanMinMax data n).1 ≤ (scanMinMax data n).2.1 :=
  scan_inv data hwf (List.range n) (999999, -999999, true) (by intro h; cases h) h

/-- The entries the scan of `_calculate_y_axis_limits` visits when it covers
the whole history: index `0` first (because `data[-0]` is `data[0]`, the
oldest entry), then the entries from newest back to second-oldest. -/
theorem visited_eq (x : Entry) (xs : List Entry) :
    (List.range (x :: xs).length).map (pyNegIdx (x :: xs)) = x :: xs.reverse := by
  apply List.ext_getElem
  · simp
  · intro i h1 h2
    simp only [List.getElem_map, List.getElem_range]
    cases i with
    | zero => simp [pyNegIdx]
    | succ j =>
      have hj : j < xs.length := by
        simp only [List.length_cons, List.length_reverse] at h2
        omega
      rw [pyNegIdx, if_neg (by omega)]
      have hk : (x :: xs).length - (j + 1) = (xs.length - 1 - j) + 1 := by
        simp only [List.length_cons]
        omega
      rw [hk, List.getD_cons_succ, List.getD_eq_getElem?_getD,
        List.getElem?_eq_getElem (by omega), Option.getD_some,
        List.getElem_cons_succ, List.getElem_reverse]

/-- When the scan covers the whole history, it is a fold of `scanStep` over
the history itself (the visiting order is a permutation of the history and
`scanStep` is right-commutative). -/
theorem scanMinMax_full (data : List Entry) :
    scanMinMax data data.length = data.foldl scanStep (999999, -999999, true) := by
  cases data with
  | nil => rfl
  | cons x xs =>
    rw [scanMinMax, ← List.foldl_map, visited_eq, List.foldl_cons, List.foldl_cons]
    exact List.Perm.foldl_eq (List.reverse_perm xs) _

theorem foldl_scanStep_eq (data : List Entry) :
    ∀ (a b : ℚ) (fl : Bool),
      data.foldl scanStep (a, b, fl) =
        ((candleLos data).foldl min a, (candleHis data).foldl max b,
         fl && (candleLos data).isEmpty) := by
  induction data with
  | nil =>
    intro a b fl
    simp [candleLos, candleHis]
  | cons e rest ih =>
    intro a b fl
    cases e with
    | none =>
      rw [List.foldl_cons]
      show rest.foldl scanStep (a, b, fl) = _
      rw [ih]
      simp [candleLos, candleHis, List.filterMap_cons]
    | some c =>
      rw [List.foldl_cons]
      show rest.foldl scanStep (min a c.lo, max b c.hi, false) = _
      rw [ih]
      simp [candleLos, candleHis, List.filterMap_cons]

/-- Full-scan evaluation of `scanMinMax`: `gmin`/`gmax` are the folds of
`min`/`max` from the sentinels over the candle fields, and
`return_defaults` is "no candle seen". -/
theorem scanMinMax_eval (data : List Entry) :
    scanMinMax data data.length = (gMin data, gMax data, (candleLos data).isEmpty) := by
  rw [scanMinMax_full, foldl_scanStep_eq]
  rw [gMin, gMax, Bool.true_and]

/-! ## Capacity clamping and the bucketing trace -/

theorem rtake_eq_drop (n : ℕ) (l : List α) : rtake n l = l.drop (l.length - n) := by
  rw [rtake, List.take_reverse, List.reverse_reverse]

theorem rtake_of_length_le (n : ℕ) (l : List α) (h : l.length ≤ n) : rtake n l = l := by
  rw [rtake_eq_drop, Nat.sub_eq_zero_of_le h, List.drop_zero]

theorem length_rtake (n : ℕ) (l : List α) : (rtake n l).length = min n l.length := by
  rw [rtake]
  simp

theorem rtake_append_rtake (n : ℕ) (a b : List α) :
    rtake n (rtake n a ++ b) = rtake n (a ++ b) := by
  rw [rtake, rtake, rtake, List.reverse_append, List.reverse_reverse, List.reverse_append]
  congr 1
  rw [List.take_append_eq_append_take, List.take_append_eq_append_take, List.take_take,
    Nat.min_eq_left (Nat.sub_le n b.reverse.length)]

theorem pyLastSlice_eq_rtake (k : ℕ) (hk : k ≠ 0) (l : List α) :
    pyLastSlice k l = rtake k l := by
  rw [pyLastSlice, if_neg hk, rtake_eq_drop]

theorem outdated_iff (cfg : Config) (s : DState) (ts : ℤ) :
    outdated cfg s ts = true ↔ ((ts - s.lastTs : ℤ) : ℚ) > cfg.secondsPerBin := by
  rw [outdated, decide_eq_true_iff]

theorem addAll_cons (cfg : Config) (s : DState) (p : ℚ × ℤ) (rest : List (ℚ × ℤ)) :
    addAll cfg s (p :: rest) = addAll cfg (addSample cfg s p.1 p.2) rest := rfl

theorem addSample_outdated (cfg : Config) (s : DState) (v : ℚ) (ts : ℤ)
    (h : outdated cfg s ts = true) :
    addSample cfg s v ts =
      { data :=
          if (s.data ++ [binEntry (s.lastBin ++ [v]) s.lastTs]).length > cfg.dataMaxSize
          then pyLastSlice cfg.dataMaxSize (s.data ++ [binEntry (s.lastBin ++ [v]) s.lastTs])
          else s.data ++ [binEntry (s.lastBin ++ [v]) s.lastTs]
        lastBin := [v]
        lastTs := ts
        lastCo2 := v } := by
  rw [addSample, if_pos h]
  rfl

theorem addSample_current (cfg : Config) (s : DState) (v : ℚ) (ts : ℤ)
    (h : ¬ outdated cfg s ts = true) :
    addSample cfg s v ts = { s with lastBin := s.lastBin ++ [v], lastCo2 := v } := by
  rw [addSample, if_neg h]

/-- One `add` step in clamped form: an outdated sample replaces the history
by the last `data_max_size` entries of `history ++ [closed entry]`; a
current sample leaves the history unchanged. -/
theorem addSample_data_rtake (cfg : Config) (s : DState) (v : ℚ) (ts : ℤ)
    (hcap : 1 ≤ cfg.dataMaxSize) (hlen : s.data.length ≤ cfg.dataMaxSize) :
    (addSample cfg s v ts).data =
      if outdated cfg s ts
      then rtake cfg.dataMaxSize (s.data ++ [binEntry (s.lastBin ++ [v]) s.lastTs])
      else s.data := by
  by_cases h : outdated cfg s ts = true
  · rw [if_pos h, addSample_outdated cfg s v ts h]
    show (if (s.data ++ [binEntry (s.lastBin ++ [v]) s.lastTs]).length > cfg.dataMaxSize
        then pyLastSlice cfg.dataMaxSize (s.data ++ [binEntry (s.lastBin ++ [v]) s.lastTs])
        else s.data ++ [binEntry (s.lastBin ++ [v]) s.lastTs]) = _
    by_cases hl : (s.data ++ [binEntry (s.lastBin ++ [v]) s.lastTs]).length > cfg.dataMaxSize
    · rw [if_pos hl, pyLastSlice_eq_rtake _ (by omega)]
    · rw [if_neg hl, rtake_of_length_le _ _ (by omega)]
  · rw [if_neg h, addSample_current cfg s v ts h]

/-- Simulation: feeding samples from any under-capacity state leaves the
history equal to the last `data_max_size` entries of the initial history
extended by the trace of produced entries. -/
theorem addAll_data_rtake (cfg : Config) (hcap : 1 ≤ cfg.dataMaxSize) :
    ∀ (samples : List (ℚ × ℤ)) (s : DState), s.data.length ≤ cfg.dataMaxSize →
      (addAll cfg s samples).data =
        rtake cfg.dataMaxSize (s.data ++ producedEntries cfg s.lastTs s.lastBin samples) := by
  intro samples
  induction samples with
  | nil =>
    intro s hlen
    show s.data = rtake cfg.dataMaxSize (s.data ++ producedEntries cfg s.lastTs s.lastBin [])
    rw [producedEntries, List.append_nil, rtake_of_length_le _ _ hlen]
  | cons p rest ih =>
    intro s hlen
    obtain ⟨v, t⟩ := p
    rw [addAll_cons]
    have hlen' : (addSample cfg s v t).data.length ≤ cfg.dataMaxSize := by
      rw [addSample_data_rtake cfg s v t hcap hlen]
      split
      · rw [length_rtake]
        exact min_le_left _ _
      · exact hlen
    rw [ih _ hlen']
    by_cases h : outdated cfg s t = true
    · rw [addSample_outdated cfg s v t h]
      show rtake cfg.dataMaxSize
          ((if (s.data ++ [binEntry (s.lastBin ++ [v]) s.lastTs]).length > cfg.dataMaxSize
            then pyLastSlice cfg.dataMaxSize (s.data ++ [binEntry (s.lastBin ++ [v]) s.lastTs])
            else s.data ++ [binEntry (s.lastBin ++ [v]) s.lastTs]) ++
            producedEntries cfg t [v] rest) = _
      have hstep : (if (s.data ++ [binEntry (s.lastBin ++ [v]) s.lastTs]).length > cfg.dataMaxSize
          then pyLastSlice cfg.dataMaxSize (s.data ++ [binEntry (s.lastBin ++ [v]) s.lastTs])
          else s.data ++ [binEntry (s.lastBin ++ [v]) s.lastTs]) =
          rtake cfg.dataMaxSize (s.data ++ [binEntry (s.lastBin ++ [v]) s.lastTs]) := by
        by_cases hl : (s.data ++ [binEntry (s.lastBin ++ [v]) s.lastTs]).length > cfg.dataMaxSize
        · rw [if_pos hl, pyLastSlice_eq_rtake _ (by omega)]
        · rw [if_neg hl, rtake_of_length_le _ _ (by omega)]
      rw [hstep, rtake_append_rtake]
      have hprod : producedEntries cfg s.lastTs s.lastBin ((v, t) :: rest) =
          binEntry (s.lastBin ++ [v]) s.lastTs :: producedEntries cfg t [v] rest := by
        rw [producedEntries, if_pos ((outdated_iff cfg s t).mp h)]
      rw [hprod, List.append_assoc, List.singleton_append]
    · rw [addSample_current cfg s v t h]
      show rtake cfg.dataMaxSize
          (s.data ++ producedEntries cfg s.lastTs (s.lastBin ++ [v]) rest) = _
      have hprod : producedEntries cfg s.lastTs s.lastBin ((v, t) :: rest) =
          producedEntries cfg s.lastTs (s.lastBin ++ [v]) rest := by
        rw [producedEntries, if_neg (by rw [← outdated_iff cfg s t]; simp [h])]
      rw [hprod]

end RpiPicoDisplay

namespace RpiPicoDisplay

/-! ## Claim theorems -/

/-- **C1** (confirmed).  For every `add(value, timestamp)` call whose
timestamp is outdated (`timestamp - last_ts > seconds_per_bin`), the value
is appended to the open bin before the bin is closed, the closed bin yields
the entry `binEntry` — `Candle(min(bin), max(bin), last_ts)` when the bin
is non-empty (which it always is here, since the boundary-crossing sample
was just appended) and a gap (`None`) when empty — exactly one such entry
is appended to the history (stated below capacity so the clamp does not
fire; the clamp is Claim C4's subject), the open bin is reset, `last_ts`
becomes the triggering sample's timestamp, and the value is appended again
so the new open bin is `[value]`. -/
theorem add_outdated_closes_bin (cfg : Config) (s : DState) (v : ℚ) (ts : ℤ)
    (hout : ((ts - s.lastTs : ℤ) : ℚ) > cfg.secondsPerBin)
    (hlen : s.data.length < cfg.dataMaxSize) :
    (addSample cfg s v ts).data = s.data ++ [binEntry (s.lastBin ++ [v]) s.lastTs] ∧
    (∀ (x : ℚ) (xs : List ℚ) (t : ℤ),
      binEntry (x :: xs) t = some ⟨xs.foldl min x, xs.foldl max x, t⟩) ∧
    (∀ t : ℤ, binEntry ([] : List ℚ) t = none) ∧
    s.lastBin ++ [v] ≠ [] ∧
    (addSample cfg s v ts).lastBin = [v] ∧
    (addSample cfg s v ts).lastTs = ts := by
  have h : outdated cfg s ts = true := (outdated_iff cfg s ts).mpr hout
  rw [addSample_outdated cfg s v ts h]
  refine ⟨?_, fun x xs t => rfl, fun t => rfl, by simp, rfl, rfl⟩
  show (if (s.data ++ [binEntry (s.lastBin ++ [v]) s.lastTs]).length > cfg.dataMaxSize
      then pyLastSlice cfg.dataMaxSize (s.data ++ [binEntry (s.lastBin ++ [v]) s.lastTs])
      else s.data ++ [binEntry (s.lastBin ++ [v]) s.lastTs]) = _
  rw [if_neg (by simp only [List.length_append, List.length_singleton]; omega)]

/-- Witness for C1: the state after `(500, t=0), (700, t=0)` with 30-second
bins, hit by the outdated sample `(900, t=31)`: the closed candle is
`(500, 900, 0)` (the carried-over 900 is included) and the new bin is
`[900]`. -/
theorem add_outdated_closes_bin_witness :
    (((31 : ℤ) - ((0 : ℤ)) : ℤ) : ℚ) > cfg30.secondsPerBin ∧
    (({ data := [], lastBin := [500, 700], lastTs := 0, lastCo2 := 700 } : DState)).data.length <
      cfg30.dataMaxSize ∧
    (addSample cfg30 { data := [], lastBin := [500, 700], lastTs := 0, lastCo2 := 700 } 900 31).data =
      [some ⟨500, 900, 0⟩] ∧
    (addSample cfg30 { data := [], lastBin := [500, 700], lastTs := 0, lastCo2 := 700 } 900 31).lastBin =
      [900] := by
  refine ⟨by decide, by decide, ?_, ?_⟩
  · have h := add_outdated_closes_bin cfg30
      { data := [], lastBin := [500, 700], lastTs := 0, lastCo2 := 700 } 900 31 (by decide) (by decide)
    rw [h.1]
    decide
  · exact (add_outdated_closes_bin cfg30
      { data := [], lastBin := [500, 700], lastTs := 0, lastCo2 := 700 } 900 31 (by decide) (by decide)).2.2.2.2.1

/-- **C2** (counterexample).  The spec's end-to-end scenario is wrong about
the code: feeding `(500,0), (700,0), (900,31)` with 30-second bins does NOT
leave history `[Candle(500,700,0)]` and open bin `[700,900]`.  Because the
outdated sample is appended to the open bin before closing and again after
resetting, the closed candle is `(500,900,0)` and the open bin is `[900]`. -/
theorem scenario_counterexample :
    ((addAll cfg30 initState [(500, 0), (700, 0), (900, 31)]).data = [some ⟨500, 900, 0⟩] ∧
     (addAll cfg30 initState [(500, 0), (700, 0), (900, 31)]).lastBin = [900]) ∧
    ¬ ((addAll cfg30 initState [(500, 0), (700, 0), (900, 31)]).data = [some ⟨500, 700, 0⟩] ∧
       (addAll cfg30 initState [(500, 0), (700, 0), (900, 31)]).lastBin = [700, 900]) := by
  decide

/-- **C2** (amended).  After feeding `(500,0), (700,0), (900,31)` with
30-second bins, the history is exactly `[Candle(500, 900, 0)]` (the
boundary-crossing sample 900 is part of the closed bin per the
carried-over-sample policy) and the open bin holds exactly `[900]`. -/
theorem scenario_amended :
    (addAll cfg30 initState [(500, 0), (700, 0), (900, 31)]).data = [some ⟨500, 900, 0⟩] ∧
    (addAll cfg30 initState [(500, 0), (700, 0), (900, 31)]).lastBin = [900] := by
  decide

/-- **C3** (counterexample).  Two samples `(1, t=0)` and `(2, t=100)` with
30-second bins have monotonically non-decreasing timestamps and cross three
bucket boundaries (`⌊100/30⌋ = 3`), yet the code produces exactly one
history entry: only one bin is closed per call, with no back-filling. -/
theorem entries_vs_boundaries_counterexample :
    (addAll cfg30 initState [(1, 0), (2, 100)]).data.length = 1 ∧
    specNumBoundariesCrossed cfg30.secondsPerBin 0 [0, 100] = 3 ∧
    (1 : ℤ) ≠ 3 := by
  refine ⟨by decide, ?_, by decide⟩
  have h1 : bucketIndex cfg30.secondsPerBin 0 100 = 3 := by
    rw [bucketIndex, show cfg30.secondsPerBin = 30 from rfl,
      show ((((100 : ℤ) - (0 : ℤ)) : ℤ) : ℚ) = 100 by norm_num, Int.floor_eq_iff]
    norm_num
  have h2 : bucketIndex cfg30.secondsPerBin 0 0 = 0 := by
    rw [bucketIndex, show cfg30.secondsPerBin = 30 from rfl,
      show ((((0 : ℤ) - (0 : ℤ)) : ℤ) : ℚ) = 0 by norm_num]
    simp
  rw [specNumBoundariesCrossed]
  show ([((0 : ℤ), (100 : ℤ))].map
      (fun p => bucketIndex cfg30.secondsPerBin 0 p.2 - bucketIndex cfg30.secondsPerBin 0 p.1)).sum = 3
  rw [List.map_cons, List.map_nil, List.sum_cons, List.sum_nil]
  show bucketIndex cfg30.secondsPerBin 0 100 - bucketIndex cfg30.secondsPerBin 0 0 + 0 = 3
  rw [h1, h2]
  decide

/-- **C3** (amended).  For every sample sequence, the number of history
entries produced equals the number of `add` calls whose timestamp was
outdated with respect to the then-current bin start — exactly one entry per
such call, even when several bucket durations elapsed (no back-filling of
skipped buckets).  `producedEntries` mirrors the recursion of `add` and
emits exactly one entry per outdated call; stated below capacity so that
clamping (Claim C4) does not remove produced entries. -/
theorem entries_per_outdated_call (cfg : Config) (samples : List (ℚ × ℤ)) (s : DState)
    (hcap : 1 ≤ cfg.dataMaxSize)
    (hlen : s.data.length + (producedEntries cfg s.lastTs s.lastBin samples).length ≤
      cfg.dataMaxSize) :
    (addAll cfg s samples).data.length =
      s.data.length + (producedEntries cfg s.lastTs s.lastBin samples).length := by
  rw [addAll_data_rtake cfg hcap samples s (by omega), length_rtake, List.length_append]
  omega

/-- Witness for the amended C3 at the counterexample input: one entry for
the single outdated call. -/
theorem entries_per_outdated_call_witness :
    1 ≤ cfg30.dataMaxSize ∧
    initState.data.length +
      (producedEntries cfg30 initState.lastTs initState.lastBin [(1, 0), (2, 100)]).length ≤
      cfg30.dataMaxSize ∧
    (addAll cfg30 initState [(1, 0), (2, 100)]).data.length =
      initState.data.length +
        (producedEntries cfg30 initState.lastTs initState.lastBin [(1, 0), (2, 100)]).length :=
  ⟨by decide, by decide,
    entries_per_outdated_call cfg30 [(1, 0), (2, 100)] initState (by decide) (by decide)⟩

/-- **C4** (confirmed).  After any sequence of `add` calls from an
under-capacity state, the history length never exceeds the configured
capacity `data_max_size` (= `graph_w`), and the retained entries are
exactly the most recent `capacity` entries of the produced sequence in
oldest-first order (`rtake` keeps the last `capacity` entries and preserves
order). -/
theorem history_capacity_clamp (cfg : Config) (samples : List (ℚ × ℤ)) (s : DState)
    (hcap : 1 ≤ cfg.dataMaxSize) (hlen : s.data.length ≤ cfg.dataMaxSize) :
    (addAll cfg s samples).data.length ≤ cfg.dataMaxSize ∧
    (addAll cfg s samples).data =
      rtake cfg.dataMaxSize (s.data ++ producedEntries cfg s.lastTs s.lastBin samples) := by
  refine ⟨?_, addAll_data_rtake cfg hcap samples s hlen⟩
  rw [addAll_data_rtake cfg hcap samples s hlen, length_rtake]
  exact min_le_left _ _

/-- Witness for C4: capacity 2, three bin-closing samples; the retained
history is the last two of the three produced entries. -/
theorem history_capacity_clamp_witness :
    1 ≤ cfgTiny.dataMaxSize ∧
    initState.data.length ≤ cfgTiny.dataMaxSize ∧
    ((addAll cfgTiny initState [(1, 31), (2, 62), (3, 100)]).data.length ≤ cfgTiny.dataMaxSize ∧
     (addAll cfgTiny initState [(1, 31), (2, 62), (3, 100)]).data =
       rtake cfgTiny.dataMaxSize
         (initState.data ++
           producedEntries cfgTiny initState.lastTs initState.lastBin
             [(1, 31), (2, 62), (3, 100)])) ∧
    (addAll cfgTiny initState [(1, 31), (2, 62), (3, 100)]).data =
      [some ⟨1, 2, 31⟩, some ⟨2, 3, 62⟩] :=
  ⟨by decide, by decide,
    history_capacity_clamp cfgTiny [(1, 31), (2, 62), (3, 100)] initState (by decide) (by decide),
    by decide⟩

end RpiPicoDisplay

namespace RpiPicoDisplay

/-- Helper: under the scan's sentinel cap, `gmin` is a candle minimum. -/
theorem gMin_mem (data : List Entry) (h : ∃ q ∈ candleLos data, q ≤ 999999) :
    gMin data ∈ candleLos data := by
  obtain ⟨q0, hmem, hle⟩ := h
  rw [gMin]
  rcases foldl_min_init_or_mem (candleLos data) 999999 with h | h
  · have h2 : (candleLos data).foldl min 999999 ≤ q0 := foldl_min_le_mem _ _ q0 hmem
    rw [h] at h2 ⊢
    have hq : q0 = 999999 := le_antisymm hle h2
    rw [← hq]
    exact hmem
  · exact h

theorem gMin_le (data : List Entry) : ∀ q ∈ candleLos data, gMin data ≤ q :=
  fun q hq => foldl_min_le_mem (candleLos data) 999999 q hq

/-- Helper: under the scan's sentinel cap, `gmax` is a candle maximum. -/
theorem gMax_mem (data : List Entry) (h : ∃ q ∈ candleHis data, -999999 ≤ q) :
    gMax data ∈ candleHis data := by
  obtain ⟨q0, hmem, hle⟩ := h
  rw [gMax]
  rcases foldl_max_init_or_mem (candleHis data) (-999999) with h | h
  · have h2 : q0 ≤ (candleHis data).foldl max (-999999) := foldl_max_mem_le _ _ q0 hmem
    rw [h] at h2 ⊢
    have hq : q0 = -999999 := le_antisymm h2 hle
    rw [← hq]
    exact hmem
  · exact h

theorem gMax_ge (data : List Entry) : ∀ q ∈ candleHis data, q ≤ gMax data :=
  fun q hq => foldl_max_mem_le (candleHis data) (-999999) q hq

/-- **C5** (amended).  When the history fits the scan window
(`len ≤ graph_w`, always true for reachable histories by C4), contains at
least one candle, and its least candle minimum does not exceed the sentinel
`999999` while its greatest candle maximum is at least the sentinel
`-999999`, the axis-limit computation returns
`(step * (⌊globalMin/step⌋ - paddingLow), step * (⌈globalMax/step⌉ + paddingHigh))`
where `globalMin`/`globalMax` (`gMin`/`gMax`) are the least candle minimum
and greatest candle maximum over the scanned entries, gaps skipped.
Without the sentinel bounds the claim is false (`axis_formula_counterexample`). -/
theorem axis_limits_formula (cfg : Config) (data : List Entry) (el eh : ℤ)
    (hlen : data.length ≤ cfg.graphW)
    (hlo : ∃ q ∈ candleLos data, q ≤ 999999)
    (hhi : ∃ q ∈ candleHis data, -999999 ≤ q) :
    gMin data ∈ candleLos data ∧ (∀ q ∈ candleLos data, gMin data ≤ q) ∧
    gMax data ∈ candleHis data ∧ (∀ q ∈ candleHis data, q ≤ gMax data) ∧
    calcYAxisLimits cfg data el eh =
      (cfg.stepY * (⌊gMin data / (cfg.stepY : ℚ)⌋ - el),
       cfg.stepY * (⌈gMax data / (cfg.stepY : ℚ)⌉ + eh)) := by
  have hne : (candleLos data).isEmpty = false := by
    obtain ⟨q0, hmem, _⟩ := hlo
    cases hl : candleLos data with
    | nil => rw [hl] at hmem; cases hmem
    | cons a l => rfl
  have hmin : min cfg.graphW data.length = data.length := min_eq_right hlen
  have hscan : scanMinMax data (min cfg.graphW data.length) = (gMin data, gMax data, false) := by
    rw [hmin, scanMinMax_eval, hne]
  refine ⟨gMin_mem data hlo, gMin_le data, gMax_mem data hhi, gMax_ge data, ?_⟩
  rw [calcYAxisLimits_eq cfg data el eh (by rw [hscan]), hscan]

/-- Witness for the amended C5: on `[Candle(600,1100,_)]` with `step=200`,
`paddingLow=1`, `paddingHigh=0` the computation returns `(400, 1200)` —
the concrete instance asserted by the claim. -/
theorem axis_limits_formula_witness :
    ([some (⟨600, 1100, 0⟩ : Candle)] : List Entry).length ≤ dispCfg.graphW ∧
    (∃ q ∈ candleLos [some ⟨600, 1100, 0⟩], q ≤ 999999) ∧
    (∃ q ∈ candleHis [some ⟨600, 1100, 0⟩], -999999 ≤ q) ∧
    calcYAxisLimits dispCfg [some ⟨600, 1100, 0⟩] 1 0 = (400, 1200) := by
  refine ⟨by decide, ⟨600, by decide, by decide⟩, ⟨1100, by decide, by decide⟩, ?_⟩
  have h := (axis_limits_formula dispCfg [some ⟨600, 1100, 0⟩] 1 0 (by decide)
      ⟨600, by decide, by decide⟩ ⟨1100, by decide, by decide⟩).2.2.2.2
  rw [h]
  have hg1 : gMin [some (⟨600, 1100, 0⟩ : Candle)] = 600 := by decide
  have hg2 : gMax [some (⟨600, 1100, 0⟩ : Candle)] = 1100 := by decide
  rw [hg1, hg2]
  have hf : ⌊(600 : ℚ) / ((dispCfg.stepY : ℤ) : ℚ)⌋ = 3 := by
    rw [show ((dispCfg.stepY : ℤ) : ℚ) = 200 by norm_num [dispCfg], Int.floor_eq_iff]
    norm_num
  have hc : ⌈(1100 : ℚ) / ((dispCfg.stepY : ℤ) : ℚ)⌉ = 6 := by
    rw [show ((dispCfg.stepY : ℤ) : ℚ) = 200 by norm_num [dispCfg], Int.ceil_eq_iff]
    norm_num
  rw [hf, hc]
  decide

/-- **C5** (counterexample).  On the single-candle history
`[Candle(1000000, 1000000, 0)]` the code returns a minimum of `999600`
(the sentinel `gmin = min(999999, 1000000) = 999999` wins), while the
claim's formula `step * (⌊globalMin/step⌋ - paddingLow)` with
`globalMin = 1000000` (the least candle minimum) gives `999800`. -/
theorem axis_formula_counterexample :
    calcYAxisLimits dispCfg [some ⟨1000000, 1000000, 0⟩] 1 0 = (999600, 1000000) ∧
    dispCfg.stepY * (⌊(1000000 : ℚ) / (dispCfg.stepY : ℚ)⌋ - dispCfg.extraLow) = 999800 ∧
    (999600 : ℤ) ≠ 999800 := by
  refine ⟨?_, ?_, by decide⟩
  · have hs : scanMinMax [some ⟨1000000, 1000000, 0⟩]
        (min dispCfg.graphW ([some (⟨1000000, 1000000, 0⟩ : Candle)] : List Entry).length) =
        (999999, 1000000, false) := by decide
    rw [calcYAxisLimits_eq _ _ _ _ (by rw [hs]), hs]
    have hf : ⌊(999999 : ℚ) / ((dispCfg.stepY : ℤ) : ℚ)⌋ = 4999 := by
      rw [show ((dispCfg.stepY : ℤ) : ℚ) = 200 by norm_num [dispCfg], Int.floor_eq_iff]
      norm_num
    have hc : ⌈(1000000 : ℚ) / ((dispCfg.stepY : ℤ) : ℚ)⌉ = 5000 := by
      rw [show ((dispCfg.stepY : ℤ) : ℚ) = 200 by norm_num [dispCfg], Int.ceil_eq_iff]
      norm_num
    rw [hf, hc]
    decide
  · have hf : ⌊(1000000 : ℚ) / ((dispCfg.stepY : ℤ) : ℚ)⌋ = 5000 := by
      rw [show ((dispCfg.stepY : ℤ) : ℚ) = 200 by norm_num [dispCfg], Int.floor_eq_iff]
      norm_num
    rw [hf]
    decide

/-- **C6** (confirmed).  For every history of candles and gaps (candles are
`(min(bin), max(bin))` summaries, so each records `min ≤ max` — `WFData`;
all histories the code produces satisfy this, `addAll_wf`) and every
non-negative padding pair, the axis-limit computation returns
`max ≥ min`. -/
theorem axis_max_ge_min (cfg : Config) (data : List Entry) (el eh : ℤ)
    (hstep : 0 < cfg.stepY) (hwf : WFData data = true) (hel : 0 ≤ el) (heh : 0 ≤ eh) :
    (calcYAxisLimits cfg data el eh).1 ≤ (calcYAxisLimits cfg data el eh).2 := by
  cases hflag : (scanMinMax data (min cfg.graphW data.length)).2.2 with
  | true =>
    have hcalc : calcYAxisLimits cfg data el eh = (400, 1000) := by
      rw [calcYAxisLimits, if_pos hflag]
    rw [hcalc]
    decide
  | false =>
    rw [calcYAxisLimits_eq cfg data el eh hflag]
    have hle := scanMinMax_min_le_max data _ ((wfData_iff data).mp hwf) hflag
    have hs : (0 : ℚ) < ((cfg.stepY : ℤ) : ℚ) := by exact_mod_cast hstep
    have hfc : ⌊(scanMinMax data (min cfg.graphW data.length)).1 / ((cfg.stepY : ℤ) : ℚ)⌋ ≤
        ⌈(scanMinMax data (min cfg.graphW data.length)).2.1 / ((cfg.stepY : ℤ) : ℚ)⌉ := by
      have hd : (scanMinMax data (min cfg.graphW data.length)).1 / ((cfg.stepY : ℤ) : ℚ) ≤
          (scanMinMax data (min cfg.graphW data.length)).2.1 / ((cfg.stepY : ℤ) : ℚ) :=
        (div_le_div_iff_of_pos_right hs).mpr hle
      exact le_trans (Int.floor_le_floor hd) (Int.floor_le_ceil _)
    show cfg.stepY * (_ - el) ≤ cfg.stepY * (_ + eh)
    have h2 : ⌊(scanMinMax data (min cfg.graphW data.length)).1 / ((cfg.stepY : ℤ) : ℚ)⌋ - el ≤
        ⌈(scanMinMax data (min cfg.graphW data.length)).2.1 / ((cfg.stepY : ℤ) : ℚ)⌉ + eh := by
      omega
    exact mul_le_mul_of_nonneg_left h2 hstep.le

/-- Witness for C6 at the empty history (fallback case): `400 ≤ 1000`. -/
theorem axis_max_ge_min_witness :
    0 < dispCfg.stepY ∧ WFData [] = true ∧ (0 : ℤ) ≤ 1 ∧ (0 : ℤ) ≤ 0 ∧
    (calcYAxisLimits dispCfg [] 1 0).1 ≤ (calcYAxisLimits dispCfg [] 1 0).2 :=
  ⟨by decide, by decide, by decide, by decide,
    axis_max_ge_min dispCfg [] 1 0 (by decide) (by decide) (by decide) (by decide)⟩

/-- **C7** (confirmed).  On a history whose scanned entries contain no
candle (all gaps, or empty), the axis-limit computation returns the fixed
fallback `(400, 1000)`.  The embedding is a total function — the empty-data
condition is recovered locally by this fallback, not raised; the only
`raise` in `_calculate_y_axis_limits` is the dead non-candle-mode guard. -/
theorem axis_fallback_all_gaps (cfg : Config) (data : List Entry) (el eh : ℤ)
    (h : ∀ e ∈ data, e = none) :
    calcYAxisLimits cfg data el eh = (400, 1000) := by
  have hscan : ∀ (l : List ℕ) (acc : ℚ × ℚ × Bool),
      l.foldl (fun acc i => scanStep acc (pyNegIdx data i)) acc = acc := by
    intro l
    induction l with
    | nil => intro acc; rfl
    | cons i rest ih =>
      intro acc
      rw [List.foldl_cons]
      have he : pyNegIdx data i = none := by
        cases hp : pyNegIdx data i with
        | none => rfl
        | some c => exact absurd (h _ (pyNegIdx_mem data i c hp)) (by simp)
      rw [he]
      exact ih acc
  rw [calcYAxisLimits,
    show scanMinMax data (min cfg.graphW data.length) = (999999, -999999, true) from hscan _ _]
  rfl

/-- Witness for C7: a two-gap history produces the fallback range. -/
theorem axis_fallback_all_gaps_witness :
    (∀ e ∈ ([none, none] : List Entry), e = none) ∧
    calcYAxisLimits dispCfg [none, none] 1 0 = (400, 1000) :=
  ⟨by decide, axis_fallback_all_gaps dispCfg [none, none] 1 0 (by decide)⟩

end RpiPicoDisplay

namespace RpiPicoDisplay

/-- **C8** (code bug).  The plot loop runs `for i in range(len(data))` and
indexes `self.data[-i]`, but `data[-0]` is `data[0]`: the first iteration
processes the OLDEST entry and draws it at `x = g_right - 0 = 296`, a
column beyond the 0–295 framebuffer, while iterations `i ≥ 1` draw the
`i`-th newest entry at `x = 296 - i` (newest at column 295).  On a
two-candle history the emitted commands are the oldest candle at `x = 296`
followed by the newest at `x = 295` — so, contrary to the claim (and the
"Iterate from the back" comment's intent), entries are not processed newest
to oldest and there is no single right edge `R` with every candle at
`R - distanceFromNewest` (the newest, distance 0, is at 295; the oldest,
distance 1, at 296).  The y-endpoint formula and the 2-pixel minimum height
do hold: the second candle has equal min/max and still gets height 2. -/
theorem plot_draws_oldest_offscreen :
    plotGraph dispCfg [some ⟨400, 700, 0⟩, some ⟨700, 700, 30⟩] 400 600 =
      [DrawCmd.vline 296 75 53, DrawCmd.vline 295 75 2] ∧
    ¬ ∃ R : ℤ, 295 = R - 0 ∧ 296 = R - 1 := by
  constructor
  · have hl : (List.range ([some (⟨400, 700, 0⟩ : Candle), some ⟨700, 700, 30⟩] : List Entry).length).takeWhile
        (fun i => decide (i ≤ dispCfg.graphW)) = [0, 1] := by decide
    have h0 : pyNegIdx [some ⟨400, 700, 0⟩, some ⟨700, 700, 30⟩] 0 = some ⟨400, 700, 0⟩ := by
      decide
    have h1 : pyNegIdx [some ⟨400, 700, 0⟩, some ⟨700, 700, 30⟩] 1 = some ⟨700, 700, 30⟩ := by
      decide
    have p75 : pyInt (75 : ℚ) = 75 := pyInt_eq _ _ (by norm_num) (by norm_num) (by norm_num)
    have p128 : pyInt (128 : ℚ) = 128 := pyInt_eq _ _ (by norm_num) (by norm_num) (by norm_num)
    rw [plotGraph, hl]
    simp only [List.filterMap_cons, List.filterMap_nil, h0, h1, Option.map_some', drawCandle_eval]
    norm_num [dispCfg]
    rw [p75, p128]
    norm_num [max_def]
  · rintro ⟨R, h1, h2⟩
    omega

/-- **C9** (counterexample).  `_update_display` — the render pass triggered
by every bucket-close — ends with `epd.display_Base(epd.buffer)`, a base
(full) repaint, and its `update_text(redraw=False)` call issues no repaint;
it never requests the partial refresh `epd.display_Partial`.  So subsequent
bucket-close renders are full repaints, not partial ones as claimed. -/
theorem refresh_counterexample :
    initRefreshes = [Refresh.base] ∧
    updateDisplayRefreshes = [Refresh.base] ∧
    Refresh.quick ∉ updateDisplayRefreshes ∧
    Refresh.base ≠ Refresh.quick := by
  refine ⟨rfl, rfl, by decide, by decide⟩

/-- **C9** (amended).  The first render (from `init`) requests a base/full
repaint, and every render triggered by a bucket-close (`_update_display`)
also requests a base/full repaint; the partial-refresh repaint
(`display_Partial`) is issued only by `update_text(redraw=True)`, which
`_update_display` never uses. -/
theorem refresh_amended :
    initRefreshes = [Refresh.base] ∧
    updateDisplayRefreshes = [Refresh.base] ∧
    updateTextRefreshes true = [Refresh.quick] ∧
    updateTextRefreshes false = [] := by
  refine ⟨rfl, rfl, rfl, rfl⟩

/-- **C10** (confirmed).  Under the constructed configuration (padding
`(1, 0)`, rounding step 200, fallback `(400, 1000)`), on every well-formed
history (all reachable histories are, `addAll_wf`) the axis range
`max - min` used by the render pass is strictly positive: exactly 600 in
the no-candle fallback case and at least one rounding step (200) when the
scan saw a candle.  Hence the division by the range in the per-bar
y-mapping never divides by zero, and the `assert y_axis_range >= 0` never
fails. -/
theorem axis_range_positive (data : List Entry) (hwf : WFData data = true) :
    0 < (calcYAxisLimits dispCfg data 1 0).2 - (calcYAxisLimits dispCfg data 1 0).1 ∧
    ((scanMinMax data (min dispCfg.graphW data.length)).2.2 = true →
      (calcYAxisLimits dispCfg data 1 0).2 - (calcYAxisLimits dispCfg data 1 0).1 = 600) ∧
    ((scanMinMax data (min dispCfg.graphW data.length)).2.2 = false →
      200 ≤ (calcYAxisLimits dispCfg data 1 0).2 - (calcYAxisLimits dispCfg data 1 0).1) := by
  cases hflag : (scanMinMax data (min dispCfg.graphW data.length)).2.2 with
  | true =>
    have hcalc : calcYAxisLimits dispCfg data 1 0 = (400, 1000) := by
      rw [calcYAxisLimits, if_pos hflag]
    rw [hcalc]
    refine ⟨by decide, fun _ => by decide, fun hc => ?_⟩
    simp [hflag] at hc
  | false =>
    have hle := scanMinMax_min_le_max data _ ((wfData_iff data).mp hwf) hflag
    have hs : (0 : ℚ) < ((dispCfg.stepY : ℤ) : ℚ) := by norm_num [dispCfg]
    have hfc : ⌊(scanMinMax data (min dispCfg.graphW data.length)).1 / ((dispCfg.stepY : ℤ) : ℚ)⌋ ≤
        ⌈(scanMinMax data (min dispCfg.graphW data.length)).2.1 / ((dispCfg.stepY : ℤ) : ℚ)⌉ := by
      have hd : (scanMinMax data (min dispCfg.graphW data.length)).1 / ((dispCfg.stepY : ℤ) : ℚ) ≤
          (scanMinMax data (min dispCfg.graphW data.length)).2.1 / ((dispCfg.stepY : ℤ) : ℚ) :=
        (div_le_div_iff_of_pos_right hs).mpr hle
      exact le_trans (Int.floor_le_floor hd) (Int.floor_le_ceil _)
    rw [calcYAxisLimits_eq dispCfg data 1 0 hflag]
    have hstep : dispCfg.stepY = 200 := rfl
    have key : (200 : ℤ) ≤
        dispCfg.stepY * (⌈(scanMinMax data (min dispCfg.graphW data.length)).2.1 / ((dispCfg.stepY : ℤ) : ℚ)⌉ + 0) -
        dispCfg.stepY * (⌊(scanMinMax data (min dispCfg.graphW data.length)).1 / ((dispCfg.stepY : ℤ) : ℚ)⌋ - 1) := by
      rw [hstep] at hfc ⊢
      omega
    refine ⟨by omega, fun hc => ?_, fun _ => key⟩
    simp [hflag] at hc

/-- Witness for C10 at the empty history: the fallback range 600 is
positive. -/
theorem axis_range_positive_witness :
    WFData [] = true ∧
    (0 < (calcYAxisLimits dispCfg [] 1 0).2 - (calcYAxisLimits dispCfg [] 1 0).1 ∧
     ((scanMinMax [] (min dispCfg.graphW ([] : List Entry).length)).2.2 = true →
       (calcYAxisLimits dispCfg [] 1 0).2 - (calcYAxisLimits dispCfg [] 1 0).1 = 600) ∧
     ((scanMinMax [] (min dispCfg.graphW ([] : List Entry).length)).2.2 = false →
       200 ≤ (calcYAxisLimits dispCfg [] 1 0).2 - (calcYAxisLimits dispCfg [] 1 0).1)) :=
  ⟨by decide, axis_range_positive [] (by decide)⟩

end RpiPicoDisplay
